import Mathlib

/-!
Verification development for the astute-workinstructions RFQ sourcing engine.

The definitions below are a shallow embedding of the sourcing scripts:

* `node/submit_rfqs.js` (src/unnamed/part_005): supplier aggregation, per-region
  selection, RFQ form filling and per-supplier submission with failure isolation.
* `franchise_check/main.js` (src/unnamed/part_018): `evaluatePart`, the
  opportunity (min-order-value) screening decision.
* The date-code classifier and the batch run lock live in the Python batch
  scripts (`python/submit_rfqs.py`, `python/batch_rfqs_from_system.py`), which
  are documented in `netcomponents_rfq/README.md` but whose code is not part of
  this tree; those two components are modelled from the specification and the
  repository's own documentation, and are marked as such.
-/

/-- Regions of the NetComponents results table.  `Unknown` is the initial
region before any region header row has been seen (part_005 line 97). -/
inductive Region
  | Americas
  | Europe
  | AsiaOther
  | Unknown
deriving DecidableEq, Repr

/-- Date-code status used by the spec's ranking policy (spec §4.2/§4.3). -/
inductive DCStatus
  | OLD
  | UNKNOWN
  | FRESH
deriving DecidableEq, Repr

/-- One data row of the results table, as consumed by the aggregation loop of
part_005 (lines 99-162): the number of `td` cells, the trimmed text of the
supplier link in cell 15 (`none` when the cell has no link), whether the
supplier cell carries the `ncauth` (authorized distributor) marker, the
quantity parsed from cell 8 (0 when unparseable), and the raw date-code text of
cell 4 (present in the DOM but never read by part_005). -/
structure RawRow where
  cells : Nat
  supplier : Option String
  ncauth : Bool
  qty : Nat
  dateCode : String
deriving DecidableEq, Repr

/-- A row of the results table: a region header ("Americas" / "Europe" /
"Asia/Other", part_005 lines 103-114), a section subheader ("In Stock" /
"Brokered Inventory", lines 117-124), or a data row. -/
inductive Row
  | regionHeader (r : Region)
  | sectionHeader (inStock : Bool)
  | data (rw : RawRow)
deriving DecidableEq, Repr

/-- An aggregated supplier candidate, keyed by supplier name and region
(part_005 line 153: `const key = supplierName|currentRegion`). -/
structure Candidate where
  name : String
  region : Region
  totalQty : Nat
deriving DecidableEq, Repr

/-- The supplier name of a data row: the link text of cell 15 if a link exists
and its trimmed text is nonempty (part_005 lines 135-138). -/
def rowName (rw : RawRow) : Option String :=
  match rw.supplier with
  | none => none
  | some n => if n = "" then none else some n

/-- `supplierData[key].totalQty += qty`, creating the entry with `totalQty` 0
first when absent (part_005 lines 153-157).  JS object string keys preserve
insertion order, so the map is an association list. -/
def addQty : List Candidate → String → Region → Nat → List Candidate
  | [], n, r, q => [⟨n, r, q⟩]
  | c :: cs, n, r, q =>
    if c.name = n ∧ c.region = r then
      ⟨c.name, c.region, c.totalQty + q⟩ :: cs
    else
      c :: addQty cs n r q

/-- State of the aggregation loop of part_005: the current region header, the
current section ("in stock" vs "brokered"), and the accumulated supplier map. -/
structure AggSt where
  currentRegion : Region
  inStockSection : Bool
  supplierData : List Candidate
deriving DecidableEq, Repr

/-- One iteration of the aggregation loop (part_005 lines 99-162): region and
section headers update the state; a data row is skipped unless the in-stock
section is active, the region is not Asia/Other, the row has at least 16 cells,
the supplier link exists with a nonempty name, and the supplier is not an
authorized distributor; otherwise its quantity is added under its key. -/
def processRow (st : AggSt) : Row → AggSt
  | .regionHeader r => { st with currentRegion := r }
  | .sectionHeader b => { st with inStockSection := b }
  | .data rw =>
    if !st.inStockSection then st
    else if st.currentRegion = .AsiaOther then st
    else if rw.cells < 16 then st
    else
      match rowName rw with
      | none => st
      | some n =>
        if rw.ncauth then st
        else { st with supplierData := addQty st.supplierData n st.currentRegion rw.qty }

/-- Initial loop state (part_005 lines 96-97): no section active, region
`Unknown`. -/
def initSt : AggSt := ⟨.Unknown, false, []⟩

/-- Run the aggregation loop over all rows. -/
def scanRows (st : AggSt) (rows : List Row) : AggSt :=
  rows.foldl processRow st

/-- The aggregated supplier map for a full results table. -/
def supplierDataOf (rows : List Row) : List Candidate :=
  (scanRows initSt rows).supplierData

/-- The comparator of part_005 line 165: `sort((a, b) => b.totalQty - a.totalQty)`,
i.e. descending total quantity. -/
def qtyDesc (a b : Candidate) : Prop := b.totalQty ≤ a.totalQty

instance : DecidableRel qtyDesc := fun a b => Nat.decLe _ _

instance : IsTotal Candidate qtyDesc := ⟨fun a b => Nat.le_total b.totalQty a.totalQty⟩

instance : IsTrans Candidate qtyDesc := ⟨fun _ _ _ h1 h2 => Nat.le_trans h2 h1⟩

/-- `const allSuppliers = Object.values(supplierData).sort((a, b) => b.totalQty - a.totalQty)`
(part_005 line 165).  JS `Array.prototype.sort` is stable, as is
`List.insertionSort`, so the embedding matches the script. -/
def allSuppliersOf (rows : List Row) : List Candidate :=
  List.insertionSort qtyDesc (supplierDataOf rows)

/-- `allSuppliers.filter(s => s.region === 'Americas')` (part_005 line 168). -/
def americasOf (rows : List Row) : List Candidate :=
  (allSuppliersOf rows).filter fun s => s.region = .Americas

/-- `allSuppliers.filter(s => s.region === 'Europe')` (part_005 line 169). -/
def europeOf (rows : List Row) : List Candidate :=
  (allSuppliersOf rows).filter fun s => s.region = .Europe

/-- `MAX_SUPPLIERS_PER_REGION` (part_005 line 21). -/
def MAX_SUPPLIERS_PER_REGION : Nat := 3

/-- `filter(s => s.totalQty >= quantity)` (part_005 lines 172-173). -/
def meetQty (quantity : Nat) (l : List Candidate) : List Candidate :=
  l.filter fun s => quantity ≤ s.totalQty

/-- Per-region selection (part_005 lines 175-181): take the first
`MAX_SUPPLIERS_PER_REGION` candidates meeting the quantity, falling back to the
first `MAX_SUPPLIERS_PER_REGION` of all candidates when none meets it. -/
def selectFrom (quantity : Nat) (l : List Candidate) : List Candidate :=
  let meets := meetQty quantity l
  if meets.length > 0 then meets.take MAX_SUPPLIERS_PER_REGION
  else l.take MAX_SUPPLIERS_PER_REGION

/-- `selectedAmericas` (part_005 lines 175-177). -/
def selectedAmericas (rows : List Row) (quantity : Nat) : List Candidate :=
  selectFrom quantity (americasOf rows)

/-- `selectedEurope` (part_005 lines 179-181). -/
def selectedEurope (rows : List Row) (quantity : Nat) : List Candidate :=
  selectFrom quantity (europeOf rows)

/-- `const allSelected = [...selectedAmericas, ...selectedEurope]`
(part_005 line 189). -/
def allSelected (rows : List Row) (quantity : Nat) : List Candidate :=
  selectedAmericas rows quantity ++ selectedEurope rows quantity

/-- Rewrite the date-code text of every data row; used to state that the
part_005 pipeline never reads date codes. -/
def reDateCode (f : String → String) : Row → Row
  | .data rw => .data ⟨rw.cells, rw.supplier, rw.ncauth, rw.qty, f rw.dateCode⟩
  | r => r

/-- The Europe country-of-origin message (part_005 line 294). -/
def cooMessage : String := "Please confirm country of origin."

/-- Content of the RFQ form before the send attempt: the quantity typed into
the quantity input and the comments field.  Part_005 fills the requested
quantity unchanged (line 278: `qtyInput.fill(quantity.toString())`) and fills
the comments field with the country-of-origin message exactly for Europe
suppliers (lines 285-297); the README documents `#Comments` as a fixed element
of the RFQ form. -/
structure RfqForm where
  qty : Nat
  comments : Option String
deriving DecidableEq, Repr

/-- Fill the RFQ form for one supplier (part_005 lines 241-297). -/
def formFill (quantity : Nat) (s : Candidate) : RfqForm :=
  ⟨quantity, if s.region = .Europe then some cooMessage else none⟩

/-- Submission status recorded per supplier (part_005 `results` entries). -/
inductive RStatus
  | SENT
  | FAILED
deriving DecidableEq, Repr

/-- How the interaction with one supplier unfolds; each constructor is one of
the paths of the per-supplier loop body (part_005 lines 199-351): supplier link
not found (line 214), no E-Mail RFQ option (line 225), Send button missing
(line 335) or disabled (line 330), a successful send (line 316), or an
exception raised anywhere in the body (caught at line 345). -/
inductive Behavior
  | ok
  | noLink
  | noRfq
  | noButton
  | disabled
  | exn (msg : String)
deriving DecidableEq, Repr

/-- Did the interaction reach the RFQ form (the fill steps of lines 241-300)?
The link-missing and RFQ-option-missing paths exit before the form. -/
def reachesForm : Behavior → Bool
  | .ok => true
  | .noButton => true
  | .disabled => true
  | _ => false

/-- One entry of `results` (part_005 lines 215-349). -/
structure SubmitResult where
  supplier : String
  region : Region
  status : RStatus
  error : Option String
  qty : Option Nat
deriving DecidableEq, Repr

/-- The per-supplier loop body of part_005 (lines 199-351): every path pushes
exactly one result; an exception is caught and pushed as FAILED with the
error message (lines 345-350). -/
def submitOne (quantity : Nat) (s : Candidate) : Behavior → SubmitResult
  | .ok => ⟨s.name, s.region, .SENT, none, some quantity⟩
  | .noLink => ⟨s.name, s.region, .FAILED, some "Supplier not found", none⟩
  | .noRfq => ⟨s.name, s.region, .FAILED, some "No RFQ option", none⟩
  | .noButton => ⟨s.name, s.region, .FAILED, some "No Send button", none⟩
  | .disabled => ⟨s.name, s.region, .FAILED, some "Send button disabled", none⟩
  | .exn msg => ⟨s.name, s.region, .FAILED, some msg, none⟩

/-- The results of the submission loop, one entry per selected supplier. -/
def resultsOf (quantity : Nat) (sel : List Candidate) (bs : List Behavior) :
    List SubmitResult :=
  List.zipWith (submitOne quantity) sel bs

/-- The whole run of part_005 `main` (lines 66-387): login and search happen
inside the outer `try` before the loop, so a failure there (e.g. bad
credentials) reaches the outer `catch` as a fatal error and no supplier is
processed; otherwise every selected supplier is processed in order by the
per-supplier loop, whose own failures are caught locally. -/
def runBatch (login : Option String) (quantity : Nat) (sel : List Candidate)
    (bs : List Behavior) : Except String (List SubmitResult) :=
  match login with
  | some e => .error e
  | none => .ok (resultsOf quantity sel bs)

/-! ### Contributing rows of the aggregation (for the exact-sum property) -/

/-- Pair every data row with the region and section state in force when the
aggregation loop reaches it, starting from the given state. -/
def annotate (reg : Region) (inS : Bool) : List Row → List (Region × Bool × RawRow)
  | [] => []
  | .regionHeader r :: rest => annotate r inS rest
  | .sectionHeader b :: rest => annotate reg b rest
  | .data rw :: rest => (reg, inS, rw) :: annotate reg inS rest

/-- A contributing, qualifying row for the candidate keyed `(n, r)`: it lies in
the in-stock section, under region `r` which is not the excluded Asia/Other
region, is well-formed (at least 16 cells), names supplier `n` through its
link, is not an authorized distributor, and has positive quantity. -/
def qualifies (n : String) (r : Region) (a : Region × Bool × RawRow) : Bool :=
  a.2.1 && decide (a.1 = r) && decide (r ≠ Region.AsiaOther)
    && decide (16 ≤ a.2.2.cells) && decide (rowName a.2.2 = some n)
    && !a.2.2.ncauth && decide (0 < a.2.2.qty)

/-- Total quantity recorded for key `(n, r)` in a supplier map. -/
def totalOf (data : List Candidate) (n : String) (r : Region) : Nat :=
  ((data.filter fun c => c.name = n ∧ c.region = r).map Candidate.totalQty).sum

/-- Sum of the quantities of the qualifying rows for key `(n, r)`, starting the
loop state machine from region `reg`, section flag `inS`. -/
def sumQual (reg : Region) (inS : Bool) (rows : List Row) (n : String) (r : Region) : Nat :=
  (((annotate reg inS rows).filter (qualifies n r)).map fun a => a.2.2.qty).sum

/-! ### Opportunity screening (`evaluatePart`, part_018 lines 165-201) -/

/-- A part to screen (part_018): requested quantity and optional target price
from the RFQ line. -/
structure ScreenPart where
  qty : Nat
  target_price : Option ℚ
deriving DecidableEq

/-- Result of the franchise search for a part (part_018 `searchResult`). -/
structure SearchOutcome where
  found : Bool
  totalQty : Nat
  lowestPrice : Option ℚ
  distributorCount : Nat
deriving DecidableEq

/-- The screening decision (part_018 `result` fields used by the decision). -/
structure EvalOutcome where
  franchise_available : Bool
  franchise_qty : Nat
  opportunity_value : Option ℚ
  send_to_broker : Bool
deriving DecidableEq

/-- JS `a || b` on optional numbers: `a` wins unless it is absent or `0`
(falsy), mirroring `searchResult.lowestPrice || part.target_price`
(part_018 line 178). -/
def jsOrQ (a b : Option ℚ) : Option ℚ :=
  match a with
  | some x => if x = 0 then b else some x
  | none => b

/-- JS `Math.round(x * 100) / 100` (part_018 line 180). -/
def round2 (x : ℚ) : ℚ := (⌊x * 100 + 1 / 2⌋ : ℚ) / 100

/-- `evaluatePart` (part_018 lines 165-201): `send_to_broker` starts `true` and
is set `false` only when the franchise is found with enough quantity and a
computed opportunity value lies below the threshold; with no price data the
opportunity value is never computed (line 179 `if (price && part.qty)`), so the
part always goes to the broker. -/
def evaluatePart (part : ScreenPart) (sr : SearchOutcome) (threshold : ℚ) : EvalOutcome :=
  let price := jsOrQ sr.lowestPrice part.target_price
  let ov : Option ℚ :=
    match price with
    | some p => if p ≠ 0 ∧ part.qty ≠ 0 then some (round2 (p * part.qty)) else none
    | none => none
  let send : Bool :=
    if sr.found = true ∧ part.qty ≤ sr.totalQty then
      match ov with
      | some v => !decide (v < threshold)
      | none => true
    else
      true
  ⟨sr.found, sr.totalQty, ov, send⟩

/-! ### Date-code classifier

Modelled from the spec: the classifier itself lives in
`python/submit_rfqs.py`, which is not part of this tree.  The model follows
spec §4.2 together with the repository's own record of the implemented
behavior: the Date Code Status table of `netcomponents_rfq/README.md` (FRESH =
confirmed 2024+, e.g. `2532`, `25`; OLD = confirmed older, e.g. `2237`,
`1507`; UNKNOWN = no date code, ambiguous format such as `2022`, or a `+`
suffix such as `20+`) and the completed-enhancement record of
`rfq_sourcing/ROADMAP.md` / MEMORY.md ("24+" date codes scored as fresh — a
`+` suffix on a year inside the freshness window confirms 2024-or-later
stock, while a `+` on an older year stays ambiguous). -/

/-- Last two digits of the current year (the sessions in this tree date the
work to 2026). -/
def CURRENT_YY : Nat := 26

/-- First fresh 2-digit year: `DC_PREFERRED_WINDOW_YEARS = 2`, so 2024+ is
fresh (README "Date Code" rule and config table). -/
def DC_FRESH_LO : Nat := 24

/-- Numeric value of a decimal digit character. -/
def digitVal (c : Char) : Option Nat :=
  if c.isDigit then some (c.toNat - 48) else none

/-- Parse exactly two decimal digits. -/
def twoDigits : List Char → Option Nat
  | [a, b] =>
    match digitVal a, digitVal b with
    | some x, some y => some (x * 10 + y)
    | _, _ => none
  | _ => none

/-- Parse exactly four decimal digits into (value, first pair, second pair). -/
def fourDigits : List Char → Option (Nat × Nat × Nat)
  | [a, b, c, d] =>
    match digitVal a, digitVal b, digitVal c, digitVal d with
    | some w, some x, some y, some z =>
      some (w * 1000 + x * 100 + y * 10 + z, w * 10 + x, y * 10 + z)
    | _, _, _, _ => none
  | _ => none

/-- Modelled from the spec: classification of a raw date code (see the section
comment above).  Empty or unrecognized text is UNKNOWN; `YY+` is FRESH when
`YY` lies in the freshness window (confirmed 2024-or-later stock) and UNKNOWN
otherwise; a bare 2-digit year is FRESH inside the window, OLD below it, and
OLD above the current year (19xx); four digits are read as `YYWW`
(year/week) or as a calendar year — if both readings are plausible the code is
ambiguous (UNKNOWN, e.g. `2022`), otherwise the unique reading decides
FRESH/OLD. -/
def classifyChars (cs : List Char) : DCStatus :=
  match cs.getLast? with
  | none => .UNKNOWN
  | some last =>
    if last = '+' then
      match twoDigits cs.dropLast with
      | some y => if DC_FRESH_LO ≤ y ∧ y ≤ CURRENT_YY then .FRESH else .UNKNOWN
      | none => .UNKNOWN
    else
      match cs.length with
      | 2 =>
        match twoDigits cs with
        | some y =>
          if DC_FRESH_LO ≤ y ∧ y ≤ CURRENT_YY then .FRESH
          else .OLD
        | none => .UNKNOWN
      | 4 =>
        match fourDigits cs with
        | some (n, yy, ww) =>
          let yyyyOk := 1990 ≤ n ∧ n ≤ 2000 + CURRENT_YY
          let yywwOk := 1 ≤ ww ∧ ww ≤ 53 ∧ yy ≤ CURRENT_YY
          if yyyyOk ∧ yywwOk then .UNKNOWN
          else if yyyyOk then (if 2000 + DC_FRESH_LO ≤ n then .FRESH else .OLD)
          else if yywwOk then (if DC_FRESH_LO ≤ yy then .FRESH else .OLD)
          else .UNKNOWN
        | none => .UNKNOWN
      | _ => .UNKNOWN

/-- Classify a raw date-code string. -/
def classifyDC (s : String) : DCStatus := classifyChars s.data

/-- Favorability order on statuses: FRESH dominates UNKNOWN dominates OLD
(spec §3, SupplierCandidate). -/
def statusRank : DCStatus → Nat
  | .OLD => 0
  | .UNKNOWN => 1
  | .FRESH => 2

/-- The more favorable of two statuses. -/
def statusMax (a b : DCStatus) : DCStatus :=
  if statusRank a < statusRank b then b else a

/-- Modelled from the spec (§3): the date-code status of the candidate keyed
`(n, r)` — the most favorable classification across its contributing listings.
Part_005 itself never reads date codes; this definition gives the spec's
vocabulary meaning over the embedded rows so that the ranking claims can be
stated against it. -/
def candStatus (rows : List Row) (n : String) (r : Region) : DCStatus :=
  ((((annotate .Unknown false rows).filter (qualifies n r)).map
    fun a => classifyDC a.2.2.dateCode).foldl statusMax .OLD)

/-- The six-tier ranking key of spec §4.3 (lower = higher priority):
FRESH & meets, UNKNOWN & meets, FRESH & below, UNKNOWN & below, OLD & meets,
OLD & below. -/
def sixTierKey (st : DCStatus) (meets : Bool) : Nat :=
  match st, meets with
  | .FRESH, true => 1
  | .UNKNOWN, true => 2
  | .FRESH, false => 3
  | .UNKNOWN, false => 4
  | .OLD, true => 5
  | .OLD, false => 6

/-! ### Run lock

Modelled from the spec: the `.lock` protection lives in
`python/batch_rfqs_from_system.py`, which is not part of this tree; the model
follows spec §3 (RunLock), §4.6 (run lifecycle) and the Lock File Protection
section of `netcomponents_rfq/README.md` (a `.lock` file keyed by the RFQ
batch prevents concurrent duplicate runs; a lock whose recorded PID is no
longer running is stale and is reclaimed automatically). -/

/-- The exclusivity token of one batch run: recorded owner process and
acquisition time. -/
structure RunLock where
  owner : Nat
  acquiredAt : Nat
deriving DecidableEq, Repr

/-- Failure mode of lock acquisition: another live run holds the lock. -/
inductive LockError
  | heldByLiveRun
deriving DecidableEq, Repr

/-- The cross-run shared state: at most one lock per batch key. -/
def lookupLock : List (String × RunLock) → String → Option RunLock
  | [], _ => none
  | (k, l) :: rest, key => if k = key then some l else lookupLock rest key

/-- Write the lock for a key (create-or-replace). -/
def setLock : List (String × RunLock) → String → RunLock → List (String × RunLock)
  | [], key, l => [(key, l)]
  | (k, l0) :: rest, key, l =>
    if k = key then (key, l) :: rest else (k, l0) :: setLock rest key l

/-- Result of a successful acquisition: the new lock table and whether a stale
lock was reclaimed. -/
structure AcquireOk where
  table : List (String × RunLock)
  reclaimed : Bool
deriving DecidableEq, Repr

/-- Modelled from the spec: start-of-run lock acquisition.  `live` is the
owner-liveness check (does the recorded PID still exist).  A lock held by a
live owner fails the run; a lock whose owner is dead is stale and is reclaimed
immediately; an absent lock is created. -/
def tryAcquire (live : Nat → Bool) (tbl : List (String × RunLock)) (key : String)
    (pid now : Nat) : Except LockError AcquireOk :=
  match lookupLock tbl key with
  | some l =>
    if live l.owner then .error .heldByLiveRun
    else .ok ⟨setLock tbl key ⟨pid, now⟩, true⟩
  | none => .ok ⟨setLock tbl key ⟨pid, now⟩, false⟩

/-- The RFQ form state produced by the interaction with one supplier: the form
is only filled on the paths that reach it (part_005 lines 241-300). -/
def formState (quantity : Nat) (s : Candidate) (b : Behavior) : Option RfqForm :=
  if reachesForm b then some (formFill quantity s) else none

/-- Two candidates with distinct `(name, region)` keys. -/
def keyDistinct (a b : Candidate) : Prop := a.name ≠ b.name ∨ a.region ≠ b.region

/-- Concrete results table exercising the ranking policy: four Americas
in-stock candidates, all meeting a requested quantity of 50; "D" carries a
fresh date code (`2532`), the others an old one (`2237`). -/
def rowsC1 : List Row :=
  [.regionHeader .Americas, .sectionHeader true,
   .data ⟨16, some "A", false, 400, "2237"⟩,
   .data ⟨16, some "B", false, 300, "2237"⟩,
   .data ⟨16, some "C", false, 200, "2237"⟩,
   .data ⟨16, some "D", false, 100, "2532"⟩]

/-- Concrete results table with five Americas in-stock candidates whose date
codes are all empty (UNKNOWN). -/
def rowsC2 : List Row :=
  [.regionHeader .Americas, .sectionHeader true,
   .data ⟨16, some "A", false, 100, ""⟩,
   .data ⟨16, some "B", false, 90, ""⟩,
   .data ⟨16, some "C", false, 80, ""⟩,
   .data ⟨16, some "D", false, 70, ""⟩,
   .data ⟨16, some "E", false, 60, ""⟩]

/-- Concrete results table with a single under-stocked Americas candidate
(stock 32 against a requested quantity of 100). -/
def rowsC3 : List Row :=
  [.regionHeader .Americas, .sectionHeader true,
   .data ⟨16, some "U", false, 32, ""⟩]

/-- Concrete results table mixing qualifying rows for supplier "A" (300 and
100 in the Americas in-stock section) with every excluded kind of row: an
authorized-distributor row, a zero-quantity row, a malformed row, a
brokered-section row, and an Asia/Other row. -/
def rowsC4 : List Row :=
  [.regionHeader .Americas, .sectionHeader true,
   .data ⟨16, some "A", false, 300, "2237"⟩,
   .data ⟨16, some "A", true, 500, ""⟩,
   .data ⟨16, some "A", false, 0, ""⟩,
   .data ⟨15, some "A", false, 50, ""⟩,
   .sectionHeader false,
   .data ⟨16, some "A", false, 70, ""⟩,
   .sectionHeader true,
   .data ⟨16, some "A", false, 100, ""⟩,
   .regionHeader .AsiaOther,
   .data ⟨16, some "A", false, 900, ""⟩]

/-- Concrete results table where the same supplier name "S" lists stock in
both Americas and Europe in-stock sections. -/
def rowsC9 : List Row :=
  [.regionHeader .Americas, .sectionHeader true,
   .data ⟨16, some "S", false, 200, ""⟩,
   .regionHeader .Europe,
   .data ⟨16, some "S", false, 150, ""⟩]

/-- Concrete results table with one Americas and one Europe in-stock
candidate. -/
def rowsC10 : List Row :=
  [.regionHeader .Americas, .sectionHeader true,
   .data ⟨16, some "AM", false, 500, ""⟩,
   .regionHeader .Europe,
   .data ⟨16, some "EU", false, 400, ""⟩]

/-! ### Lemmas about the aggregation map -/

theorem mem_addQty {data : List Candidate} {n : String} {r : Region} {q : Nat}
    {c : Candidate} (h : c ∈ addQty data n r q) :
    (c.name = n ∧ c.region = r) ∨ c ∈ data := by
  induction data with
  | nil =>
    simp only [addQty, List.mem_singleton] at h
    subst h
    exact Or.inl ⟨rfl, rfl⟩
  | cons d rest ih =>
    by_cases hd : d.name = n ∧ d.region = r
    · rw [addQty, if_pos hd] at h
      rcases List.mem_cons.mp h with h1 | h1
      · subst h1
        exact Or.inl hd
      · exact Or.inr (List.mem_cons_of_mem _ h1)
    · rw [addQty, if_neg hd] at h
      rcases List.mem_cons.mp h with h1 | h1
      · subst h1
        exact Or.inr (List.mem_cons_self _ _)
      · rcases ih h1 with h2 | h2
        · exact Or.inl h2
        · exact Or.inr (List.mem_cons_of_mem _ h2)

theorem pairwise_addQty {data : List Candidate} (h : data.Pairwise keyDistinct)
    (n : String) (r : Region) (q : Nat) :
    (addQty data n r q).Pairwise keyDistinct := by
  induction data with
  | nil => simp [addQty]
  | cons d rest ih =>
    rw [List.pairwise_cons] at h
    by_cases hd : d.name = n ∧ d.region = r
    · rw [addQty, if_pos hd]
      exact List.pairwise_cons.mpr ⟨fun c hc => h.1 c hc, h.2⟩
    · rw [addQty, if_neg hd]
      refine List.pairwise_cons.mpr ⟨fun c hc => ?_, ih h.2⟩
      rcases mem_addQty hc with h1 | h1
      · rcases not_and_or.mp hd with h2 | h2
        · exact Or.inl (h1.1 ▸ h2)
        · exact Or.inr (h1.2 ▸ h2)
      · exact h.1 c h1

theorem totalOf_addQty (data : List Candidate) (n : String) (r : Region) (q : Nat)
    (m : String) (t : Region) :
    totalOf (addQty data n r q) m t =
      totalOf data m t + (if n = m ∧ r = t then q else 0) := by
  induction data with
  | nil =>
    by_cases h : n = m ∧ r = t
    · simp [addQty, totalOf, h.1, h.2, h]
    · have h' : ¬ ((n = m) ∧ (r = t)) := h
      simp only [addQty, totalOf, List.filter, List.map]
      rw [if_neg h]
      simp [decide_eq_true_eq, h']
  | cons d rest ih =>
    by_cases hd : d.name = n ∧ d.region = r
    · rw [addQty, if_pos hd]
      by_cases hm : d.name = m ∧ d.region = t
      · have hnm : n = m ∧ r = t := ⟨hd.1 ▸ hm.1, hd.2 ▸ hm.2⟩
        simp only [totalOf, List.filter_cons]
        rw [if_pos hnm]
        simp only [decide_eq_true_eq]
        rw [if_pos hm, if_pos hm]
        simp only [List.map_cons, List.sum_cons]
        omega
      · have hnm : ¬ (n = m ∧ r = t) := by
          intro hc
          exact hm ⟨hd.1.trans hc.1, hd.2.trans hc.2⟩
        simp only [totalOf, List.filter_cons]
        rw [if_neg hnm]
        simp only [decide_eq_true_eq]
        rw [if_neg hm, if_neg hm]
        omega
    · rw [addQty, if_neg hd]
      by_cases hm : d.name = m ∧ d.region = t
      · simp only [totalOf, List.filter_cons, decide_eq_true_eq]
        rw [if_pos hm, if_pos hm]
        simp only [List.map_cons, List.sum_cons]
        have := ih
        simp only [totalOf] at this
        omega
      · simp only [totalOf, List.filter_cons, decide_eq_true_eq]
        rw [if_neg hm, if_neg hm]
        have := ih
        simp only [totalOf] at this
        omega

theorem processRow_data_cases (st : AggSt) (row : Row) :
    (processRow st row).supplierData = st.supplierData ∨
      ∃ n r q, (processRow st row).supplierData = addQty st.supplierData n r q := by
  cases row with
  | regionHeader r => exact Or.inl rfl
  | sectionHeader b => exact Or.inl rfl
  | data rw =>
    simp only [processRow]
    split
    · exact Or.inl rfl
    split
    · exact Or.inl rfl
    split
    · exact Or.inl rfl
    split
    · exact Or.inl rfl
    split
    · exact Or.inl rfl
    · exact Or.inr ⟨_, _, _, rfl⟩

theorem pairwise_processRow {st : AggSt} {row : Row}
    (h : st.supplierData.Pairwise keyDistinct) :
    (processRow st row).supplierData.Pairwise keyDistinct := by
  rcases processRow_data_cases st row with he | ⟨n, r, q, he⟩ <;> rw [he]
  · exact h
  · exact pairwise_addQty h n r q

theorem pairwise_scanRows (rows : List Row) :
    ∀ st : AggSt, st.supplierData.Pairwise keyDistinct →
      (scanRows st rows).supplierData.Pairwise keyDistinct := by
  induction rows with
  | nil => exact fun _ h => h
  | cons row rest ih =>
    intro st h
    have : scanRows st (row :: rest) = scanRows (processRow st row) rest := rfl
    rw [this]
    exact ih _ (pairwise_processRow h)

theorem pairwise_supplierDataOf (rows : List Row) :
    (supplierDataOf rows).Pairwise keyDistinct :=
  pairwise_scanRows rows initSt List.Pairwise.nil

theorem qualifies_iff (n : String) (r : Region) (a : Region × Bool × RawRow) :
    qualifies n r a = true ↔
      a.2.1 = true ∧ a.1 = r ∧ r ≠ Region.AsiaOther ∧ 16 ≤ a.2.2.cells ∧
        rowName a.2.2 = some n ∧ a.2.2.ncauth = false ∧ 0 < a.2.2.qty := by
  simp only [qualifies, Bool.and_eq_true, decide_eq_true_eq, Bool.not_eq_true']
  tauto

theorem totalOf_processRow_data (st : AggSt) (rw : RawRow) (m : String) (t : Region) :
    totalOf (processRow st (.data rw)).supplierData m t =
      totalOf st.supplierData m t +
        (if qualifies m t (st.currentRegion, st.inStockSection, rw) then rw.qty else 0) := by
  obtain ⟨reg, inS, data⟩ := st
  cases inS with
  | false =>
    have hq : qualifies m t (reg, false, rw) = false := by
      refine Bool.eq_false_iff.mpr fun hc => ?_
      have h1 := ((qualifies_iff m t _).mp hc).1
      exact Bool.false_ne_true h1
    dsimp only
    rw [hq]
    simp [processRow]
  | true =>
    dsimp only
    by_cases hAsia : reg = Region.AsiaOther
    · have hq : qualifies m t (reg, true, rw) = false := by
        refine Bool.eq_false_iff.mpr fun hc => ?_
        obtain ⟨-, h2, h3, -⟩ := (qualifies_iff m t _).mp hc
        exact h3 (h2 ▸ hAsia)
      rw [hq]
      simp [processRow, hAsia]
    · by_cases hCells : rw.cells < 16
      · have hq : qualifies m t (reg, true, rw) = false := by
          refine Bool.eq_false_iff.mpr fun hc => ?_
          obtain ⟨-, -, -, h4, -⟩ := (qualifies_iff m t _).mp hc
          dsimp only at h4
          omega
        rw [hq]
        simp [processRow, hAsia, hCells]
      · cases hrn : rowName rw with
        | none =>
          have hq : qualifies m t (reg, true, rw) = false := by
            refine Bool.eq_false_iff.mpr fun hc => ?_
            obtain ⟨-, -, -, -, h5, -⟩ := (qualifies_iff m t _).mp hc
            dsimp only at h5
            rw [hrn] at h5
            exact Option.noConfusion h5
          rw [hq]
          simp [processRow, hAsia, hCells, hrn]
        | some n =>
          by_cases hAuth : rw.ncauth = true
          · have hq : qualifies m t (reg, true, rw) = false := by
              refine Bool.eq_false_iff.mpr fun hc => ?_
              obtain ⟨-, -, -, -, -, h6, -⟩ := (qualifies_iff m t _).mp hc
              dsimp only at h6
              rw [hAuth] at h6
              exact Bool.noConfusion h6
            rw [hq]
            simp [processRow, hAsia, hCells, hrn, hAuth]
          · have hAuth2 : rw.ncauth = false := Bool.not_eq_true _ ▸ hAuth
            have hdata : (processRow ⟨reg, true, data⟩ (.data rw)).supplierData =
                addQty data n reg rw.qty := by
              simp [processRow, hAsia, hCells, hrn, hAuth2]
            rw [hdata, totalOf_addQty]
            congr 1
            by_cases hk : n = m ∧ reg = t
            · rw [if_pos hk]
              by_cases hq0 : 0 < rw.qty
              · have hq : qualifies m t (reg, true, rw) = true :=
                  (qualifies_iff m t _).mpr
                    ⟨rfl, hk.2, hk.2 ▸ hAsia, by dsimp only; omega, hk.1 ▸ hrn, hAuth2, hq0⟩
                rw [hq, if_pos rfl]
              · have hz : rw.qty = 0 := by omega
                rw [hz]
                split <;> rfl
            · rw [if_neg hk]
              have hq : qualifies m t (reg, true, rw) = false := by
                refine Bool.eq_false_iff.mpr fun hc => ?_
                obtain ⟨-, h2, -, -, h5, -⟩ := (qualifies_iff m t _).mp hc
                dsimp only at h2 h5
                rw [hrn] at h5
                exact hk ⟨Option.some.inj h5, h2⟩
              rw [hq]
              simp

theorem sumQual_data (reg : Region) (inS : Bool) (rw : RawRow) (rest : List Row)
    (m : String) (t : Region) :
    sumQual reg inS (.data rw :: rest) m t =
      (if qualifies m t (reg, inS, rw) then rw.qty else 0) + sumQual reg inS rest m t := by
  simp only [sumQual, annotate, List.filter_cons]
  split <;> simp

theorem processRow_data_state (st : AggSt) (rw : RawRow) :
    (processRow st (.data rw)).currentRegion = st.currentRegion ∧
      (processRow st (.data rw)).inStockSection = st.inStockSection := by
  simp only [processRow]
  split
  · exact ⟨rfl, rfl⟩
  split
  · exact ⟨rfl, rfl⟩
  split
  · exact ⟨rfl, rfl⟩
  split
  · exact ⟨rfl, rfl⟩
  split
  · exact ⟨rfl, rfl⟩
  · exact ⟨rfl, rfl⟩

theorem totalOf_scanRows (rows : List Row) :
    ∀ (st : AggSt) (m : String) (t : Region),
      totalOf (scanRows st rows).supplierData m t =
        totalOf st.supplierData m t +
          sumQual st.currentRegion st.inStockSection rows m t := by
  induction rows with
  | nil => intro st m t; simp [scanRows, sumQual, annotate, totalOf]
  | cons row rest ih =>
    intro st m t
    have hsc : scanRows st (row :: rest) = scanRows (processRow st row) rest := rfl
    rw [hsc, ih]
    cases row with
    | regionHeader r =>
      have h1 : processRow st (.regionHeader r) = ⟨r, st.inStockSection, st.supplierData⟩ := rfl
      rw [h1]
      rfl
    | sectionHeader b =>
      have h1 : processRow st (.sectionHeader b) = ⟨st.currentRegion, b, st.supplierData⟩ := rfl
      rw [h1]
      rfl
    | data rw =>
      rw [(processRow_data_state st rw).1, (processRow_data_state st rw).2,
        totalOf_processRow_data, sumQual_data]
      omega

theorem totalOf_supplierDataOf (rows : List Row) (m : String) (t : Region) :
    totalOf (supplierDataOf rows) m t = sumQual .Unknown false rows m t := by
  have h := totalOf_scanRows rows initSt m t
  simp only [supplierDataOf]
  rw [h]
  simp [totalOf, initSt]

theorem totalOf_eq_of_mem {data : List Candidate} (hp : data.Pairwise keyDistinct)
    {c : Candidate} (hc : c ∈ data) :
    totalOf data c.name c.region = c.totalQty := by
  induction data with
  | nil => cases hc
  | cons d rest ih =>
    rw [List.pairwise_cons] at hp
    rcases List.mem_cons.mp hc with h1 | h1
    · subst h1
      have hrest : totalOf rest c.name c.region = 0 := by
        simp only [totalOf]
        have : rest.filter (fun x => decide (x.name = c.name ∧ x.region = c.region)) = [] := by
          rw [List.filter_eq_nil_iff]
          intro a ha
          simp only [decide_eq_true_eq]
          intro hcon
          rcases hp.1 a ha with h2 | h2
          · exact h2 hcon.1.symm
          · exact h2 hcon.2.symm
        rw [this]
        rfl
      simp only [totalOf, List.filter_cons, decide_eq_true_eq, eq_self_iff_true, and_self,
        if_true, List.map_cons, List.sum_cons]
      simp only [totalOf] at hrest
      omega
    · have hd : ¬ (d.name = c.name ∧ d.region = c.region) := by
        rcases hp.1 c h1 with h2 | h2
        · exact fun hcon => h2 hcon.1
        · exact fun hcon => h2 hcon.2
      simp only [totalOf, List.filter_cons, decide_eq_true_eq, if_neg hd]
      exact ih hp.2 h1

theorem exists_of_totalOf_pos {data : List Candidate} {m : String} {t : Region}
    (h : 0 < totalOf data m t) :
    ∃ c ∈ data, c.name = m ∧ c.region = t := by
  induction data with
  | nil => simp [totalOf] at h
  | cons d rest ih =>
    by_cases hd : d.name = m ∧ d.region = t
    · exact ⟨d, List.mem_cons_self _ _, hd⟩
    · simp only [totalOf, List.filter_cons, decide_eq_true_eq, if_neg hd] at h
      obtain ⟨c, hc1, hc2⟩ := ih h
      exact ⟨c, List.mem_cons_of_mem _ hc1, hc2⟩

theorem sumQual_pos_of_mem {rows : List Row} {a : Region × Bool × RawRow} {n : String}
    (ha : a ∈ annotate .Unknown false rows) (hq : qualifies n a.1 a = true) :
    0 < sumQual .Unknown false rows n a.1 := by
  have hmem : a ∈ (annotate .Unknown false rows).filter (qualifies n a.1) :=
    List.mem_filter.mpr ⟨ha, hq⟩
  have hqty : a.2.2.qty ∈
      ((annotate .Unknown false rows).filter (qualifies n a.1)).map fun x => x.2.2.qty :=
    List.mem_map_of_mem _ hmem
  have hle : a.2.2.qty ≤ sumQual .Unknown false rows n a.1 :=
    List.single_le_sum (fun x _ => Nat.zero_le x) _ hqty
  have hpos : 0 < a.2.2.qty := ((qualifies_iff n a.1 a).mp hq).2.2.2.2.2.2
  omega

/-! ### Lemmas about the per-region selection -/

theorem selectFrom_sublist (quantity : Nat) (l : List Candidate) :
    (selectFrom quantity l).Sublist l := by
  rw [selectFrom]
  split
  · exact ((meetQty quantity l).take_sublist _).trans (l.filter_sublist ..)
  · exact l.take_sublist _

theorem sorted_allSuppliers (rows : List Row) : (allSuppliersOf rows).Sorted qtyDesc :=
  List.sorted_insertionSort qtyDesc _

theorem sorted_americas (rows : List Row) : (americasOf rows).Sorted qtyDesc :=
  (sorted_allSuppliers rows).sublist (List.filter_sublist ..)

theorem sorted_europe (rows : List Row) : (europeOf rows).Sorted qtyDesc :=
  (sorted_allSuppliers rows).sublist (List.filter_sublist ..)

theorem sorted_selectFrom {l : List Candidate} (hl : l.Sorted qtyDesc) (quantity : Nat) :
    (selectFrom quantity l).Sorted qtyDesc :=
  hl.sublist (selectFrom_sublist quantity l)

theorem selectFrom_length (quantity : Nat) (l : List Candidate) :
    (selectFrom quantity l).length ≤ MAX_SUPPLIERS_PER_REGION := by
  rw [selectFrom]
  split
  · exact (List.length_take ..).trans_le (Nat.min_le_left ..)
  · exact (List.length_take ..).trans_le (Nat.min_le_left ..)

theorem selectFrom_meets {l : List Candidate} {quantity : Nat}
    (h : meetQty quantity l ≠ []) :
    ∀ s ∈ selectFrom quantity l, quantity ≤ s.totalQty := by
  intro s hs
  rw [selectFrom] at hs
  rw [if_pos (List.length_pos.mpr h)] at hs
  have hs2 : s ∈ meetQty quantity l := ((meetQty quantity l).take_sublist _).mem hs
  have := List.mem_filter.mp hs2
  exact of_decide_eq_true this.2

theorem take_dominates {l : List Candidate} (h : l.Sorted qtyDesc) (k : Nat)
    {s c : Candidate} (hs : s ∈ l.take k) (hc : c ∈ l) (hcn : c ∉ l.take k) :
    c.totalQty ≤ s.totalQty := by
  have hl : l = l.take k ++ l.drop k := (List.take_append_drop k l).symm
  have hcd : c ∈ l.drop k := by
    rcases List.mem_append.mp (hl ▸ hc) with h1 | h1
    · exact absurd h1 hcn
    · exact h1
  have hp := (List.pairwise_append.mp (hl ▸ h)).2.2
  exact hp s hs c hcd

theorem selectFrom_dominates {l : List Candidate} (hl : l.Sorted qtyDesc) {quantity : Nat}
    {s c : Candidate} (hs : s ∈ selectFrom quantity l) (hc : c ∈ l)
    (hcn : c ∉ selectFrom quantity l)
    (hg : meetQty quantity l = [] ∨ quantity ≤ c.totalQty) :
    c.totalQty ≤ s.totalQty := by
  rw [selectFrom] at hs hcn
  by_cases hm : (meetQty quantity l).length > 0
  · rw [if_pos hm] at hs hcn
    rcases hg with hg | hg
    · rw [hg] at hm
      exact absurd hm (by simp)
    · have hcm : c ∈ meetQty quantity l :=
        List.mem_filter.mpr ⟨hc, decide_eq_true hg⟩
      exact take_dominates (hl.sublist (List.filter_sublist ..)) _ hs hcm hcn
  · rw [if_neg hm] at hs hcn
    exact take_dominates hl _ hs hc hcn

/-! ### The pipeline never reads date codes -/

theorem processRow_reDateCode (st : AggSt) (row : Row) (f : String → String) :
    processRow st (reDateCode f row) = processRow st row := by
  cases row with
  | regionHeader r => rfl
  | sectionHeader b => rfl
  | data rw => rfl

theorem scanRows_reDateCode (rows : List Row) (f : String → String) :
    ∀ st : AggSt, scanRows st (rows.map (reDateCode f)) = scanRows st rows := by
  induction rows with
  | nil => intro st; rfl
  | cons row rest ih =>
    intro st
    have h1 : scanRows st ((row :: rest).map (reDateCode f)) =
        scanRows (processRow st (reDateCode f row)) (rest.map (reDateCode f)) := rfl
    rw [h1, processRow_reDateCode, ih]
    rfl

theorem allSelected_reDateCode (rows : List Row) (quantity : Nat) (f : String → String) :
    allSelected (rows.map (reDateCode f)) quantity = allSelected rows quantity := by
  have h : supplierDataOf (rows.map (reDateCode f)) = supplierDataOf rows := by
    simp only [supplierDataOf, scanRows_reDateCode]
  simp only [allSelected, selectedAmericas, selectedEurope, americasOf, europeOf,
    allSuppliersOf, h]

theorem keyDistinct_symm : Symmetric keyDistinct := fun _ _ h => h.imp Ne.symm Ne.symm

theorem pairwise_allSuppliers (rows : List Row) :
    (allSuppliersOf rows).Pairwise keyDistinct :=
  ((List.perm_insertionSort qtyDesc (supplierDataOf rows)).pairwise_iff
    (fun hxy => keyDistinct_symm hxy)).mpr (pairwise_supplierDataOf rows)

theorem mem_americasOf {rows : List Row} {c : Candidate} (h : c ∈ americasOf rows) :
    c.region = .Americas := by
  have := List.mem_filter.mp h
  exact of_decide_eq_true this.2

theorem mem_europeOf {rows : List Row} {c : Candidate} (h : c ∈ europeOf rows) :
    c.region = .Europe := by
  have := List.mem_filter.mp h
  exact of_decide_eq_true this.2

theorem pairwise_selectedAmericas (rows : List Row) (quantity : Nat) :
    (selectedAmericas rows quantity).Pairwise keyDistinct :=
  ((pairwise_allSuppliers rows).sublist (List.filter_sublist ..)).sublist
    (selectFrom_sublist ..)

theorem pairwise_selectedEurope (rows : List Row) (quantity : Nat) :
    (selectedEurope rows quantity).Pairwise keyDistinct :=
  ((pairwise_allSuppliers rows).sublist (List.filter_sublist ..)).sublist
    (selectFrom_sublist ..)

theorem mem_selectedAmericas {rows : List Row} {quantity : Nat} {c : Candidate}
    (h : c ∈ selectedAmericas rows quantity) : c ∈ americasOf rows :=
  (selectFrom_sublist ..).mem h

theorem mem_selectedEurope {rows : List Row} {quantity : Nat} {c : Candidate}
    (h : c ∈ selectedEurope rows quantity) : c ∈ europeOf rows :=
  (selectFrom_sublist ..).mem h

/-! ## Claim theorems -/

/-- Claim C3 (confirmed): for every selected candidate, the quantity typed
into the RFQ form is the original requested quantity unchanged (part_005 line
278); consequently, when the candidate's stock is below the requested
quantity the submitted quantity is at least 0.9 times the stock (stated
exactly as `9 * stock ≤ 10 * submitted`) and at most the requested quantity,
and when the stock meets the requested quantity the submitted quantity equals
the requested quantity. -/
theorem C3_quantity_fill_bounds (rows : List Row) (quantity : Nat) (s : Candidate)
    (hs : s ∈ allSelected rows quantity) :
    (formFill quantity s).qty = quantity ∧
      (s.totalQty < quantity →
        9 * s.totalQty ≤ 10 * (formFill quantity s).qty ∧
          (formFill quantity s).qty ≤ quantity) ∧
      (quantity ≤ s.totalQty → (formFill quantity s).qty = quantity) := by
  refine ⟨rfl, fun h => ⟨?_, ?_⟩, fun _ => rfl⟩
  · show 9 * s.totalQty ≤ 10 * quantity
    omega
  · show quantity ≤ quantity
    omega

/-- Claim C3 witness: the single Americas candidate with stock 32 is selected
for a requested quantity of 100 and the filled quantity 100 satisfies both
bounds. -/
theorem C3_quantity_fill_bounds_witness :
    9 * 32 ≤ 10 * (formFill 100 ⟨"U", .Americas, 32⟩).qty ∧
      (formFill 100 ⟨"U", .Americas, 32⟩).qty ≤ 100 :=
  (C3_quantity_fill_bounds rowsC3 100 ⟨"U", .Americas, 32⟩ (by decide)).2.1 (by decide)

/-- Claim C6 (confirmed): `evaluatePart` (part_018) never filters a part that
has no reference price data — when the franchise search reports no price and
the RFQ line has no target price, no opportunity value is computed and the
part is still sent to broker sourcing. -/
theorem C6_opportunity_fail_open (part : ScreenPart) (sr : SearchOutcome) (threshold : ℚ)
    (h1 : sr.lowestPrice = none) (h2 : part.target_price = none) :
    (evaluatePart part sr threshold).send_to_broker = true ∧
      (evaluatePart part sr threshold).opportunity_value = none := by
  simp only [evaluatePart, jsOrQ, h1, h2]
  constructor
  · split <;> rfl
  · trivial

/-- Claim C6 witness: a part with franchise stock 500 against a requested 100
but no price data anywhere is still sent to the broker. -/
theorem C6_opportunity_fail_open_witness :
    (evaluatePart ⟨100, none⟩ ⟨true, 500, none, 3⟩ 50).send_to_broker = true ∧
      (evaluatePart ⟨100, none⟩ ⟨true, 500, none, 3⟩ 50).opportunity_value = none :=
  C6_opportunity_fail_open ⟨100, none⟩ ⟨true, 500, none, 3⟩ 50 rfl rfl

/-- Claim C7 (confirmed): in the submission run of part_005, a fatal
precondition failure (login/search, caught by the outer `catch`) aborts the
whole run, while each per-supplier job produces exactly one recorded outcome;
a job whose interaction raises an exception is recorded as FAILED with the
error message, and every other job's outcome is untouched (the run continues
with the remaining suppliers). -/
theorem C7_failure_isolation (quantity : Nat) (sel : List Candidate) (bs : List Behavior)
    (hlen : bs.length = sel.length) :
    (runBatch none quantity sel bs = .ok (resultsOf quantity sel bs)) ∧
      (resultsOf quantity sel bs).length = sel.length ∧
      (∀ (i : Nat) (h1 : i < sel.length) (h2 : i < bs.length)
          (h3 : i < (resultsOf quantity sel bs).length),
        (resultsOf quantity sel bs)[i] = submitOne quantity sel[i] bs[i]) ∧
      (∀ (i : Nat) (h1 : i < sel.length) (h2 : i < bs.length)
          (h3 : i < (resultsOf quantity sel bs).length) (e : String),
        bs[i] = Behavior.exn e →
          ((resultsOf quantity sel bs)[i].status = .FAILED ∧
            (resultsOf quantity sel bs)[i].error = some e)) ∧
      (∀ e : String, runBatch (some e) quantity sel bs = .error e) := by
  refine ⟨rfl, ?_, ?_, ?_, fun e => rfl⟩
  · simp [resultsOf, hlen]
  · intro i h1 h2 h3
    simp [resultsOf, List.getElem_zipWith]
  · intro i h1 h2 h3 e he
    simp [resultsOf, List.getElem_zipWith, he, submitOne]

/-- Claim C7 witness: with two suppliers, the first job raising a timeout is
recorded FAILED with its message while the second is still SENT, and a login
failure aborts the whole run. -/
theorem C7_failure_isolation_witness :
    ((resultsOf 100 [⟨"X", .Americas, 400⟩, ⟨"Y", .Americas, 300⟩]
        [.exn "page timeout", .ok])[0].status = .FAILED ∧
      (resultsOf 100 [⟨"X", .Americas, 400⟩, ⟨"Y", .Americas, 300⟩]
        [.exn "page timeout", .ok])[0].error = some "page timeout") ∧
    (resultsOf 100 [⟨"X", .Americas, 400⟩, ⟨"Y", .Americas, 300⟩]
        [.exn "page timeout", .ok])[1].status = .SENT ∧
    runBatch (some "Login failed") 100 [⟨"X", .Americas, 400⟩, ⟨"Y", .Americas, 300⟩]
        [.exn "page timeout", .ok] = .error "Login failed" := by
  refine ⟨?_, by decide, ?_⟩
  · exact (C7_failure_isolation 100 _ _ rfl).2.2.2.1 0 (by decide) (by decide) (by decide)
      "page timeout" rfl
  · exact (C7_failure_isolation 100 _ _ rfl).2.2.2.2 "Login failed"

/-- Claim C8 (confirmed, modelled from the spec): a run keyed by a batch
identity cannot start while the key's `RunLock` is held by a live owner
(`tryAcquire` fails with a distinct error), it starts immediately and reclaims
the lock when the recorded owner is no longer alive, and it starts normally
when no lock exists; in both success cases the new lock records the new
owner. -/
theorem C8_run_lock (live : Nat → Bool) (tbl : List (String × RunLock)) (key : String)
    (pid now : Nat) :
    (∀ l : RunLock, lookupLock tbl key = some l → live l.owner = true →
        tryAcquire live tbl key pid now = .error .heldByLiveRun) ∧
      (∀ l : RunLock, lookupLock tbl key = some l → live l.owner = false →
        tryAcquire live tbl key pid now = .ok ⟨setLock tbl key ⟨pid, now⟩, true⟩ ∧
          lookupLock (setLock tbl key ⟨pid, now⟩) key = some ⟨pid, now⟩) ∧
      (lookupLock tbl key = none →
        tryAcquire live tbl key pid now = .ok ⟨setLock tbl key ⟨pid, now⟩, false⟩ ∧
          lookupLock (setLock tbl key ⟨pid, now⟩) key = some ⟨pid, now⟩) := by
  have hset : ∀ tbl0 : List (String × RunLock),
      lookupLock (setLock tbl0 key ⟨pid, now⟩) key = some ⟨pid, now⟩ := by
    intro tbl0
    induction tbl0 with
    | nil => simp [setLock, lookupLock]
    | cons p rest ih =>
      by_cases h : p.1 = key
      · simp [setLock, h, lookupLock]
      · obtain ⟨k, l⟩ := p
        simp only at h
        simp [setLock, h, lookupLock, ih]
  refine ⟨fun l hl hlive => ?_, fun l hl hlive => ?_, fun hl => ?_⟩
  · simp [tryAcquire, hl, hlive]
  · simp [tryAcquire, hl, hlive, hset]
  · simp [tryAcquire, hl, hset]

/-- Claim C8 witness: with a lock for batch key "RFQ_1130292" owned by dead
process 1, a new run (process 2) acquires by reclaim; the same state with a
live owner refuses to start; an absent key acquires fresh. -/
theorem C8_run_lock_witness :
    tryAcquire (fun p => p == 7) [("RFQ_1130292", ⟨1, 0⟩)] "RFQ_1130292" 2 5 =
        .ok ⟨[("RFQ_1130292", ⟨2, 5⟩)], true⟩ ∧
      tryAcquire (fun p => p == 1) [("RFQ_1130292", ⟨1, 0⟩)] "RFQ_1130292" 2 5 =
        .error .heldByLiveRun ∧
      tryAcquire (fun p => p == 7) [] "RFQ_1130292" 2 5 =
        .ok ⟨[("RFQ_1130292", ⟨2, 5⟩)], false⟩ :=
  ⟨((C8_run_lock (fun p => p == 7) [("RFQ_1130292", ⟨1, 0⟩)] "RFQ_1130292" 2 5).2.1
      ⟨1, 0⟩ rfl rfl).1,
    (C8_run_lock (fun p => p == 1) [("RFQ_1130292", ⟨1, 0⟩)] "RFQ_1130292" 2 5).1
      ⟨1, 0⟩ rfl rfl,
    ((C8_run_lock (fun p => p == 7) [] "RFQ_1130292" 2 5).2.2 rfl).1⟩

/-- Claim C10 (confirmed): for every selected supplier whose submission
reaches the RFQ form, the comments field is filled with "Please confirm
country of origin." exactly when the supplier's region is Europe, and is left
empty for any other region (part_005 lines 285-297). -/
theorem C10_europe_coo (rows : List Row) (quantity : Nat) (s : Candidate) (b : Behavior)
    (hs : s ∈ allSelected rows quantity) (hb : reachesForm b = true) :
    formState quantity s b = some (formFill quantity s) ∧
      ((formFill quantity s).comments = some cooMessage ↔ s.region = .Europe) ∧
      (s.region ≠ .Europe → (formFill quantity s).comments = none) := by
  refine ⟨by simp [formState, hb], ?_, fun h => by simp [formFill, h]⟩
  by_cases h : s.region = .Europe
  · simp [formFill, h]
  · simp [formFill, h]

/-- Claim C10 witness: the Europe candidate's form carries the
country-of-origin message while the Americas candidate's form has empty
comments. -/
theorem C10_europe_coo_witness :
    (formFill 100 ⟨"EU", .Europe, 400⟩).comments = some cooMessage ∧
      (formFill 100 ⟨"AM", .Americas, 500⟩).comments = none :=
  ⟨((C10_europe_coo rowsC10 100 ⟨"EU", .Europe, 400⟩ .ok (by decide) rfl).2.1).mpr rfl,
    (C10_europe_coo rowsC10 100 ⟨"AM", .Americas, 500⟩ .ok (by decide) rfl).2.2 (by decide)⟩

/-- Claim C5 counterexample: the raw date code "24+" — a 2-digit year followed
by "+" — is classified FRESH, not UNKNOWN, matching the repository's
completed-enhancement record ("24+" date codes scored as fresh) and refuting
the claim that every "+"-suffixed code is UNKNOWN. -/
theorem C5_counterexample :
    classifyDC "24+" = .FRESH ∧ classifyDC "24+" ≠ .UNKNOWN := by
  constructor
  · rfl
  · intro h
    exact DCStatus.noConfusion (h.symm.trans rfl)

/-- Claim C5 as amended (the counterexample forces the FRESH case): a raw date
code ending in "+" is never classified OLD; it is FRESH exactly when the text
before the "+" is a 2-digit year inside the freshness window (2024-2026, e.g.
"24+"), and UNKNOWN otherwise (e.g. "20+", whose stock could be anywhere from
2020 on). -/
theorem C5_plus_suffix (s : String) (h : s.data.getLast? = some '+') :
    classifyDC s ≠ .OLD ∧
      (classifyDC s = .FRESH ↔
        ∃ y, twoDigits s.data.dropLast = some y ∧ DC_FRESH_LO ≤ y ∧ y ≤ CURRENT_YY) := by
  have hc : classifyDC s =
      match twoDigits s.data.dropLast with
      | some y => if DC_FRESH_LO ≤ y ∧ y ≤ CURRENT_YY then .FRESH else .UNKNOWN
      | none => .UNKNOWN := by
    rw [classifyDC, classifyChars, h]
    simp
  rw [hc]
  cases htd : twoDigits s.data.dropLast with
  | none =>
    refine ⟨fun hcon => DCStatus.noConfusion hcon, ?_⟩
    simp
  | some y =>
    dsimp only
    by_cases hy : DC_FRESH_LO ≤ y ∧ y ≤ CURRENT_YY
    · rw [if_pos hy]
      exact ⟨fun hcon => DCStatus.noConfusion hcon,
        ⟨fun _ => ⟨y, rfl, hy⟩, fun _ => rfl⟩⟩
    · rw [if_neg hy]
      refine ⟨fun hcon => DCStatus.noConfusion hcon, ?_⟩
      constructor
      · intro hcon
        exact DCStatus.noConfusion hcon
      · rintro ⟨y2, hy2, hy3⟩
        rw [Option.some.injEq] at hy2
        exact absurd (hy2 ▸ hy3) hy

/-- Claim C5 witness: applied to "20+" — a "+"-suffixed year below the
freshness window — the amended classification is not OLD, and it is not FRESH
because 20 is below the window. -/
theorem C5_plus_suffix_witness :
    classifyDC "20+" ≠ .OLD ∧
      (classifyDC "20+" = .FRESH ↔
        ∃ y, twoDigits "20+".data.dropLast = some y ∧ DC_FRESH_LO ≤ y ∧ y ≤ CURRENT_YY) :=
  C5_plus_suffix "20+" (by decide)

/-- Claim C4 (confirmed): for every results table, every aggregated candidate's
`totalQty` equals the sum of the quantities over exactly its contributing
qualifying rows — the data rows reached in the in-stock section under the
candidate's (non-excluded) region that name its supplier through a link, are
not authorized distributors, and have positive quantity; the aggregation map
holds at most one candidate per (name, region) key (no double counting), and
every qualifying row's key is represented by some candidate (no omission). -/
theorem C4_aggregation_exact (rows : List Row) :
    (∀ c ∈ supplierDataOf rows,
        c.totalQty = sumQual .Unknown false rows c.name c.region) ∧
      (supplierDataOf rows).Pairwise keyDistinct ∧
      (∀ a ∈ annotate .Unknown false rows, ∀ n : String, qualifies n a.1 a = true →
        ∃ c ∈ supplierDataOf rows, c.name = n ∧ c.region = a.1) := by
  refine ⟨fun c hc => ?_, pairwise_supplierDataOf rows, fun a ha n hq => ?_⟩
  · rw [← totalOf_supplierDataOf]
    exact (totalOf_eq_of_mem (pairwise_supplierDataOf rows) hc).symm
  · have hpos : 0 < totalOf (supplierDataOf rows) n a.1 := by
      rw [totalOf_supplierDataOf]
      exact sumQual_pos_of_mem ha hq
    exact exists_of_totalOf_pos hpos

/-- Claim C4 witness: in the mixed table `rowsC4`, supplier "A" in the
Americas aggregates to 400 — exactly the sum 300 + 100 of its two qualifying
rows, with the authorized, zero-quantity, malformed, brokered and Asia/Other
rows all excluded. -/
theorem C4_aggregation_exact_witness :
    (Candidate.mk "A" .Americas 400) ∈ supplierDataOf rowsC4 ∧
      (Candidate.mk "A" .Americas 400).totalQty =
        sumQual .Unknown false rowsC4 "A" .Americas ∧
      sumQual .Unknown false rowsC4 "A" .Americas = 300 + 100 :=
  ⟨by decide,
    (C4_aggregation_exact rowsC4).1 ⟨"A", .Americas, 400⟩ (by decide),
    by decide⟩

/-- Claim C1 counterexample: in `rowsC1` with requested quantity 50, candidate
"D" meets the quantity and its date-code status is FRESH (spec tier 1,
strictly better than the OLD & meets tier 5 of "A"), yet the selection keeps
"A" and omits "D" — the selection ranks by total quantity alone, not by the
six-tier key, and candidates meeting the quantity are not mutually equal. -/
theorem C1_counterexample :
    (Candidate.mk "D" .Americas 100) ∈ americasOf rowsC1 ∧
      (50 ≤ (Candidate.mk "D" .Americas 100).totalQty) ∧
      candStatus rowsC1 "D" .Americas = .FRESH ∧
      candStatus rowsC1 "A" .Americas = .OLD ∧
      sixTierKey (candStatus rowsC1 "D" .Americas) true <
        sixTierKey (candStatus rowsC1 "A" .Americas) true ∧
      (Candidate.mk "A" .Americas 400) ∈ selectedAmericas rowsC1 50 ∧
      (Candidate.mk "D" .Americas 100) ∉ selectedAmericas rowsC1 50 := by
  decide

/-- Claim C1 as amended (what part_005 actually does): within each region the
selected list is ordered by descending `total_quantity` alone — date codes are
never read (selection is invariant under rewriting them) — candidates meeting
the requested quantity are preferred as a pool (when any exists, only meeting
candidates are selected), and the selected candidates dominate every
non-selected candidate of the relevant pool by `total_quantity`; in
particular candidates that meet the requested quantity are ranked by
magnitude, not mutually equal, and no freshness tier exists. -/
theorem C1_ranking_by_quantity (rows : List Row) (quantity : Nat) :
    ((selectedAmericas rows quantity).Sorted qtyDesc ∧
        (selectedEurope rows quantity).Sorted qtyDesc) ∧
      ((meetQty quantity (americasOf rows) ≠ [] →
          ∀ s ∈ selectedAmericas rows quantity, quantity ≤ s.totalQty) ∧
        (meetQty quantity (europeOf rows) ≠ [] →
          ∀ s ∈ selectedEurope rows quantity, quantity ≤ s.totalQty)) ∧
      ((∀ s ∈ selectedAmericas rows quantity, ∀ c ∈ americasOf rows,
          c ∉ selectedAmericas rows quantity →
          (meetQty quantity (americasOf rows) = [] ∨ quantity ≤ c.totalQty) →
          c.totalQty ≤ s.totalQty) ∧
        (∀ s ∈ selectedEurope rows quantity, ∀ c ∈ europeOf rows,
          c ∉ selectedEurope rows quantity →
          (meetQty quantity (europeOf rows) = [] ∨ quantity ≤ c.totalQty) →
          c.totalQty ≤ s.totalQty)) ∧
      (∀ f : String → String,
        allSelected (rows.map (reDateCode f)) quantity = allSelected rows quantity) := by
  refine ⟨⟨sorted_selectFrom (sorted_americas rows) quantity,
      sorted_selectFrom (sorted_europe rows) quantity⟩,
    ⟨fun h s hs => selectFrom_meets h s hs, fun h s hs => selectFrom_meets h s hs⟩,
    ⟨fun s hs c hc hcn hg => selectFrom_dominates (sorted_americas rows) hs hc hcn hg,
      fun s hs c hc hcn hg => selectFrom_dominates (sorted_europe rows) hs hc hcn hg⟩,
    fun f => allSelected_reDateCode rows quantity f⟩

/-- Claim C1 amended witness: in `rowsC1` at quantity 50, the selected
candidate "A" (400) dominates the omitted, quantity-meeting candidate "D"
(100) by magnitude. -/
theorem C1_ranking_by_quantity_witness :
    (Candidate.mk "D" .Americas 100).totalQty ≤ (Candidate.mk "A" .Americas 400).totalQty :=
  (C1_ranking_by_quantity rowsC1 50).2.2.1.1 ⟨"A", .Americas, 400⟩ (by decide)
    ⟨"D", .Americas, 100⟩ (by decide) (by decide) (Or.inr (by decide))

/-- Claim C2 counterexample: in `rowsC2` at requested quantity 10, every
selected Americas candidate has UNKNOWN date-code status and a fourth
quantity-meeting candidate is available, yet exactly 3 are selected — no
buffer slot is ever added. -/
theorem C2_counterexample :
    (selectedAmericas rowsC2 10).length = 3 ∧
      4 ≤ (meetQty 10 (americasOf rowsC2)).length ∧
      (∀ c ∈ selectedAmericas rowsC2 10, candStatus rowsC2 c.name c.region = .UNKNOWN) := by
  decide

/-- Claim C2 as amended: the selection returns at most `C` = 3
(`MAX_SUPPLIERS_PER_REGION`) candidates per region — the cap is never raised,
since date codes are not read (selection is invariant under rewriting them) —
and every selected candidate is from the Americas or Europe, never from the
excluded Asia/Other region. -/
theorem C2_caps_and_regions (rows : List Row) (quantity : Nat) :
    (selectedAmericas rows quantity).length ≤ MAX_SUPPLIERS_PER_REGION ∧
      (selectedEurope rows quantity).length ≤ MAX_SUPPLIERS_PER_REGION ∧
      (∀ c ∈ allSelected rows quantity, c.region = .Americas ∨ c.region = .Europe) ∧
      (∀ c ∈ allSelected rows quantity, c.region ≠ .AsiaOther) ∧
      (∀ f : String → String,
        allSelected (rows.map (reDateCode f)) quantity = allSelected rows quantity) := by
  have hreg : ∀ c ∈ allSelected rows quantity,
      c.region = .Americas ∨ c.region = .Europe := by
    intro c hc
    rcases List.mem_append.mp hc with h | h
    · exact Or.inl (mem_americasOf (mem_selectedAmericas h))
    · exact Or.inr (mem_europeOf (mem_selectedEurope h))
  refine ⟨selectFrom_length .., selectFrom_length .., hreg, fun c hc => ?_,
    fun f => allSelected_reDateCode rows quantity f⟩
  rcases hreg c hc with h | h <;> simp [h]

/-- Claim C2 amended witness: in `rowsC2` at quantity 10 the Americas
selection respects the cap of 3 and its first candidate is not from the
excluded region. -/
theorem C2_caps_and_regions_witness :
    (selectedAmericas rowsC2 10).length ≤ MAX_SUPPLIERS_PER_REGION ∧
      (Candidate.mk "A" .Americas 100).region ≠ .AsiaOther :=
  ⟨(C2_caps_and_regions rowsC2 10).1,
    (C2_caps_and_regions rowsC2 10).2.2.2.1 ⟨"A", .Americas, 100⟩ (by decide)⟩

/-- Claim C9 counterexample: in `rowsC9` the same supplier name "S" is
selected once under Americas and once under Europe, so the combined selected
list repeats a supplier name. -/
theorem C9_counterexample :
    ¬ ((allSelected rowsC9 100).map Candidate.name).Nodup ∧
      (allSelected rowsC9 100).length = 2 := by
  decide

/-- Candidates of one region with pairwise-distinct keys have pairwise
distinct names. -/
theorem names_nodup {l : List Candidate} {r : Region} (hp : l.Pairwise keyDistinct)
    (hr : ∀ c ∈ l, c.region = r) : (l.map Candidate.name).Nodup := by
  show (l.map Candidate.name).Pairwise (· ≠ ·)
  rw [List.pairwise_map]
  have hmem := List.Pairwise.and_mem.mp hp
  refine hmem.imp ?_
  intro a b hab
  obtain ⟨ha, hb, hk⟩ := hab
  rcases hk with h1 | h1
  · exact h1
  · exact absurd ((hr a ha).trans (hr b hb).symm) h1

/-- Candidates with pairwise-distinct keys map to a duplicate-free key list. -/
theorem keys_nodup {l : List Candidate} (hp : l.Pairwise keyDistinct) :
    (l.map fun c => (c.name, c.region)).Nodup := by
  show (l.map fun c => (c.name, c.region)).Pairwise (· ≠ ·)
  rw [List.pairwise_map]
  refine hp.imp ?_
  intro a b h heq
  rcases h with h1 | h1
  · exact h1 (congrArg Prod.fst heq)
  · exact h1 (congrArg Prod.snd heq)

/-- Claim C9 as amended: no `(supplier_name, region)` candidate appears twice
in a part's selected list, and within each single region no supplier name
repeats; the counterexample shows the same supplier name can still appear
once under Americas and once under Europe in the combined list. -/
theorem C9_no_duplicate_candidates (rows : List Row) (quantity : Nat) :
    ((allSelected rows quantity).map fun c => (c.name, c.region)).Nodup ∧
      ((selectedAmericas rows quantity).map Candidate.name).Nodup ∧
      ((selectedEurope rows quantity).map Candidate.name).Nodup := by
  have hA := pairwise_selectedAmericas rows quantity
  have hE := pairwise_selectedEurope rows quantity
  have hAr : ∀ c ∈ selectedAmericas rows quantity, c.region = .Americas :=
    fun c hc => mem_americasOf (mem_selectedAmericas hc)
  have hEr : ∀ c ∈ selectedEurope rows quantity, c.region = .Europe :=
    fun c hc => mem_europeOf (mem_selectedEurope hc)
  refine ⟨?_, names_nodup hA hAr, names_nodup hE hEr⟩
  rw [allSelected, List.map_append]
  refine (keys_nodup hA).append (keys_nodup hE) ?_
  intro x hx1 hx2
  obtain ⟨a, ha, hax⟩ := List.mem_map.mp hx1
  obtain ⟨b, hb, hbx⟩ := List.mem_map.mp hx2
  have h1 : a.region = .Americas := hAr a ha
  have h2 : b.region = .Europe := hEr b hb
  have h3 : a.region = b.region := congrArg Prod.snd (hax.trans hbx.symm)
  rw [h1, h2] at h3
  exact Region.noConfusion h3

/-- Claim C9 amended witness: in `rowsC9` the combined selected list has no
duplicate `(name, region)` key even though the name "S" repeats. -/
theorem C9_no_duplicate_candidates_witness :
    ((allSelected rowsC9 100).map fun c => (c.name, c.region)).Nodup :=
  (C9_no_duplicate_candidates rowsC9 100).1
